import Mathlib

/-! # Loop Relay session core, shallowly embedded

Definitions translated from src/app/page.tsx of the music-share repository:
the shared data model, the presence queue, the state reconciler (the live
subscription handler and the join-time history fetch), the leader
arbitration tick, the publish operations, and the loop commit engine.
Timestamps, versions and steps are modelled as Nat, fractional BPM
arithmetic as ℚ with JS Math.round as `round`, and fallible or
publish-nothing paths as Option. -/

namespace MusicShare

inductive Instrument where
  | drums
  | keys
  | bass
deriving DecidableEq, Repr, Fintype

/-- A note. `velocity` is stored in hundredths (the source's 0.9 is 90 here)
so that concrete states stay kernel-decidable; nothing in the core branches
on it. -/
structure Note where
  id : String
  pitch : String
  step : Nat
  duration : Nat
  velocity : Nat
deriving DecidableEq, Repr

/-- Committed loop. The source's optional `synthParams` record is set to `{}`
by its only writer (`commitDraft`) and never read by the core, so it is
omitted here. -/
structure Loop where
  id : String
  userId : String
  userName : String
  userColor : String
  instrument : Instrument
  notes : List Note
  createdAt : Nat
deriving DecidableEq, Repr

structure Turn where
  userId : String
  startedAt : Nat
  endsAt : Nat
deriving DecidableEq, Repr

structure SessionState where
  bpm : Nat
  loops : List Loop
  activeTurn : Option Turn
  version : Nat
  creatorId : Option String
  windowCycles : Nat
  playbackStartedAt : Option Nat
deriving DecidableEq, Repr

structure Participant where
  id : String
  name : String
  color : String
  joinedAt : Nat
deriving DecidableEq, Repr

/-- The `Record<DrumRow, boolean[]>` drum draft grid. -/
structure DrumGrid where
  kick : List Bool
  snare : List Bool
  hat : List Bool
  clap : List Bool
deriving DecidableEq, Repr

def STEP_COUNT : Nat := 16
def DRUM_LOOP_LIMIT : Nat := 4
def MELODIC_LOOP_LIMIT : Nat := 2

/-- One drum row of `drumsToNotes`: `grid[row].forEach((active, step) => ...)`. -/
def rowNotes (pitch : String) (row : List Bool) : List Note :=
  row.enum.filterMap fun p =>
    if p.2 then
      some { id := pitch ++ "-" ++ toString p.1, pitch := pitch, step := p.1,
             duration := 1, velocity := 90 }
    else none

/-- `drumsToNotes`, iterating DRUM_ROWS in order kick, snare, hat, clap. -/
def drumsToNotes (g : DrumGrid) : List Note :=
  rowNotes "kick" g.kick ++ rowNotes "snare" g.snare ++
    rowNotes "hat" g.hat ++ rowNotes "clap" g.clap

/-- `queueFromPresence`: `[...members].sort((a, b) => a.joinedAt - b.joinedAt)`.
JS Array.prototype.sort is required to be stable, so this is the stable sort
by `joinedAt`, modelled by stable insertion sort. -/
def queueFromPresence (members : List Participant) : List Participant :=
  List.insertionSort (fun a b => a.joinedAt ≤ b.joinedAt) members

/-- `clampBpm`: `Math.min(180, Math.max(60, Math.round(bpm)))`. -/
def clampBpm (bpm : ℚ) : Nat := (min 180 (max 60 (round bpm))).toNat

/-- The `channel.subscribe("state")` handler: adopt the incoming state when the
local version is unset (`!version`) or the incoming version is at least the
local one; otherwise keep the local state. -/
def applyIncoming (localState incoming : SessionState) : SessionState :=
  if localState.version = 0 ∨ incoming.version ≥ localState.version then incoming
  else localState

/-- The join-time `channel.history({ limit: 1 })` bootstrap: if the fetch
yields a state message it is adopted, with no version comparison. -/
def applyHistory (localState : SessionState) (latest : Option SessionState) : SessionState :=
  match latest with
  | some incoming => incoming
  | none => localState

/-- `publishState`: the next state becomes the local state before the relay
publish resolves; a failed publish is only logged, never rolled back, so the
resulting local state ignores the acknowledgment flag. -/
def publishState (_localState next : SessionState) (_publishOk : Bool) : SessionState :=
  next

/-- The `compositionWindowMs` memo:
`Math.round(((60 / bpm) * STEP_COUNT) * windowCycles * 1000)`. -/
def compositionWindowMs (bpm windowCycles : Nat) : Nat :=
  (round ((60 / (bpm : ℚ)) * STEP_COUNT * windowCycles * 1000)).toNat

/-- `Array.prototype.indexOf`: first index of `x`, `-1` when absent. -/
def jsIndexOf : List String → String → Int
  | [], _ => -1
  | y :: ys, x =>
    if y = x then 0
    else
      let r := jsIndexOf ys x
      if r = -1 then -1 else r + 1

/-- The genesis bootstrap effect: the queue head synthesizes the initial
SessionState when no prior state has been observed (`stateLoaded` false and
`creatorId` unset), deferring otherwise. -/
def bootstrapStep (s : SessionState) (stateLoaded : Bool) (queue : List Participant)
    (meId : String) (now : Nat) : Option SessionState :=
  if stateLoaded then none
  else
    match queue with
    | [] => none
    | q0 :: _ =>
      if s.creatorId ≠ none then none
      else if q0.id ≠ meId then none
      else
        some { bpm := s.bpm, loops := [],
               activeTurn := some { userId := meId, startedAt := now,
                                    endsAt := now + compositionWindowMs s.bpm s.windowCycles },
               version := now, creatorId := some meId,
               windowCycles := s.windowCycles, playbackStartedAt := some now }

/-- One tick of the leader arbitration effect: start a turn when none is
active, and rotate away a turn whose holder has left the queue or whose
window has elapsed, via `queueIds[(indexOf(userId) + 1) % queueIds.length]`. -/
def arbitrateStep (s : SessionState) (queueIds : List String) (now windowMs : Nat) :
    Option SessionState :=
  match s.activeTurn with
  | none =>
    match queueIds with
    | [] => none
    | q0 :: _ =>
      some { s with
             activeTurn := some { userId := q0, startedAt := now, endsAt := now + windowMs },
             version := now }
  | some active =>
    if (active.userId ∉ queueIds ∨ active.endsAt ≤ now) ∧ queueIds ≠ [] then
      some { s with
             activeTurn := some
               { userId := queueIds.getD
                   ((jsIndexOf queueIds active.userId + 1) % (queueIds.length : Int)).toNat "",
                 startedAt := now, endsAt := now + windowMs },
             version := now }
    else none

/-- The explicit pass action `rotateTurn`. -/
def rotateTurn (s : SessionState) (queueIds : List String) (now windowMs : Nat) :
    Option SessionState :=
  match queueIds with
  | [] => none
  | _ :: _ =>
    let currentIdx : Int :=
      match s.activeTurn with
      | some t => jsIndexOf queueIds t.userId
      | none => -1
    some { s with
           activeTurn := some
             { userId := queueIds.getD ((currentIdx + 1) % (queueIds.length : Int)).toNat "",
               startedAt := now, endsAt := now + windowMs },
           version := now }

/-- `bpmInput`: clamp the value, restamp the version with the current time,
and stretch or shrink the active turn, never letting it end sooner than
1500 ms from now. -/
def bpmInput (s : SessionState) (value : ℚ) (now : Nat) : SessionState :=
  let next := clampBpm value
  let windowMs := (round ((60 / (next : ℚ)) * STEP_COUNT * 1000 * s.windowCycles)).toNat
  { s with bpm := next, version := now,
           activeTurn := s.activeTurn.map fun a =>
             { a with endsAt := max (a.startedAt + windowMs) (now + 1500) } }

/-- `cycleInput`: keep the value only if it is one of the valid cycle counts,
restamp the version, and adjust the active turn with the same floor. -/
def cycleInput (s : SessionState) (value : Nat) (now : Nat) : SessionState :=
  let cycles := if value ∈ [2, 4, 8] then value else 4
  let windowMs := (round ((60 / (s.bpm : ℚ)) * STEP_COUNT * 1000 * cycles)).toNat
  { s with windowCycles := cycles, version := now,
           activeTurn := s.activeTurn.map fun a =>
             { a with endsAt := max (a.startedAt + windowMs) (now + 1500) } }

/-- `toggleSessionPlayback`: pause when playing, otherwise start at now. -/
def toggleSessionPlayback (s : SessionState) (now : Nat) : SessionState :=
  { s with playbackStartedAt := if s.playbackStartedAt ≠ none then none else some now,
           version := now }

def voices (l : Loop) : List String := l.notes.map Note.pitch

/-- `usedDrumSounds`: every pitch appearing in the notes of a committed drum
loop (the source collects them into a Set; membership is what matters). -/
def usedDrumSounds (loops : List Loop) : List String :=
  ((loops.filter fun l => l.instrument = Instrument.drums).map voices).flatten

/-- `drumConflict`: the drum draft reuses a sound already present in some
committed drum loop (the source materializes the intersection and tests it
for emptiness). -/
def drumConflict (draftNotes : List Note) (loops : List Loop) : Bool :=
  decide (∃ n ∈ draftNotes, n.pitch ∈ usedDrumSounds loops)

/-- `getDraftNotes`: drums read the grid; melodic drafts are remapped onto
the current scale (out-of-scale pitches fall back to the scale's first note)
and stably sorted by step. -/
def getDraftNotes (inst : Instrument) (g : DrumGrid) (piano : List Note)
    (scaleNotes : List String) : List Note :=
  match inst with
  | .drums => drumsToNotes g
  | _ =>
    List.insertionSort (fun a b => a.step ≤ b.step)
      (piano.map fun n => if n.pitch ∈ scaleNotes then n else { n with pitch := scaleNotes.headD "" })

def isMyTurn (s : SessionState) (meId : String) : Bool :=
  match s.activeTurn with
  | some t => t.userId = meId
  | none => false

def loopLimit (inst : Instrument) : Nat :=
  if inst = Instrument.drums then DRUM_LOOP_LIMIT else MELODIC_LOOP_LIMIT

/-- `replaceTarget ?? existing[0].id`; the empty-list arm is only consulted
when `existing` has length at least `loopLimit inst ≥ 1`, mirroring that
`existing[0]` is only read under that guard. -/
def chosenReplaceId (s : SessionState) (inst : Instrument) (replaceTarget : Option String) :
    String :=
  match replaceTarget with
  | some r => r
  | none =>
    match s.loops.filter (fun l => l.instrument = inst) with
    | [] => ""
    | e :: _ => e.id

/-- The loop set kept by `commitDraft` before the new loop is appended:
at capacity, every loop except the chosen replacement id; under capacity,
the loops of the other instruments. -/
def commitKeepLoops (s : SessionState) (inst : Instrument) (replaceTarget : Option String) :
    List Loop :=
  if (s.loops.filter fun l => l.instrument = inst).length ≥ loopLimit inst then
    s.loops.filter fun l => l.id ≠ chosenReplaceId s inst replaceTarget
  else
    s.loops.filter fun l => l.instrument ≠ inst

/-- The next turn computed inside `commitDraft`:
`queueIds[(indexOf(me) + 1) % queueIds.length]` when the queue is nonempty. -/
def nextTurnAfter (meId : String) (queueIds : List String) (now windowMs : Nat) : Option Turn :=
  match queueIds with
  | [] => none
  | _ :: _ =>
    some { userId := queueIds.getD ((jsIndexOf queueIds meId + 1) % (queueIds.length : Int)).toNat "",
           startedAt := now, endsAt := now + windowMs }

/-- The combined SessionState published by a successful `commitDraft`. -/
def commitResult (s : SessionState) (me : Participant) (inst : Instrument) (notes : List Note)
    (replaceTarget : Option String) (queueIds : List String) (now windowMs : Nat)
    (newLoopId : String) : SessionState :=
  { s with
    loops := commitKeepLoops s inst replaceTarget ++
      [{ id := newLoopId, userId := me.id, userName := me.name, userColor := me.color,
         instrument := inst, notes := notes, createdAt := now }],
    activeTurn := nextTurnAfter me.id queueIds now windowMs,
    version := now }

/-- `commitDraft`: early-return (publish nothing) when the caller does not
hold the turn, when the draft is empty, or when a drum draft reuses a sound
of a committed drum loop; otherwise publish the combined update. -/
def commitDraft (s : SessionState) (me : Participant) (inst : Instrument) (g : DrumGrid)
    (piano : List Note) (scaleNotes : List String) (replaceTarget : Option String)
    (queueIds : List String) (now windowMs : Nat) (newLoopId : String) : Option SessionState :=
  if isMyTurn s me.id then
    if getDraftNotes inst g piano scaleNotes = [] then none
    else if inst = Instrument.drums ∧ drumConflict (drumsToNotes g) s.loops then none
    else some (commitResult s me inst (getDraftNotes inst g piano scaleNotes)
      replaceTarget queueIds now windowMs newLoopId)
  else none

/-- Number of committed loops of one instrument. -/
def countInst (loops : List Loop) (inst : Instrument) : Nat :=
  (loops.filter fun l => l.instrument = inst).length

/-- No drum voice appears in the note sets of two different committed drum
loops. -/
def drumExclusive (loops : List Loop) : Prop :=
  (loops.filter fun l => l.instrument = Instrument.drums).Pairwise
    fun a b => ∀ p ∈ voices a, p ∉ voices b

instance (loops : List Loop) : Decidable (drumExclusive loops) := by
  unfold drumExclusive
  infer_instance

/-! ## Concrete states used by witnesses and counterexamples -/

/-- A freshly joined peer: the initial `useState` value (version 0). -/
def freshPeerState : SessionState :=
  { bpm := 120, loops := [], activeTurn := none, version := 0, creatorId := none,
    windowCycles := 4, playbackStartedAt := none }

/-- A genesis state stamped at version 1000 (Scenario E). -/
def genesisA : SessionState :=
  { bpm := 120, loops := [], activeTurn := none, version := 1000, creatorId := some "p1",
    windowCycles := 4, playbackStartedAt := none }

/-- A competing genesis state stamped at version 1001 (Scenario E). -/
def genesisB : SessionState :=
  { bpm := 124, loops := [], activeTurn := none, version := 1001, creatorId := some "p2",
    windowCycles := 4, playbackStartedAt := none }

/-- A session whose active turn is held by the departed participant P1. -/
def departedQueueState : SessionState :=
  { bpm := 120, loops := [], activeTurn := some { userId := "P1", startedAt := 0, endsAt := 10 },
    version := 1, creatorId := some "P0", windowCycles := 4, playbackStartedAt := none }

def simJoinA : Participant := { id := "aa", name := "A", color := "c1", joinedAt := 5 }

def simJoinB : Participant := { id := "bb", name := "B", color := "c2", joinedAt := 5 }

/-- A local state already at version 5. -/
def versionFiveState : SessionState :=
  { bpm := 120, loops := [], activeTurn := none, version := 5, creatorId := some "p1",
    windowCycles := 4, playbackStartedAt := none }

def meP : Participant := { id := "me", name := "M", color := "c0", joinedAt := 0 }

def kickNote : Note := { id := "kick-0", pitch := "kick", step := 0, duration := 1, velocity := 90 }

def drumLoopA : Loop :=
  { id := "a", userId := "u1", userName := "U1", userColor := "c1", instrument := .drums,
    notes := [kickNote], createdAt := 0 }

def drumLoopB : Loop :=
  { id := "b", userId := "u2", userName := "U2", userColor := "c2", instrument := .drums,
    notes := [], createdAt := 1 }

def drumLoopC : Loop :=
  { id := "c", userId := "u3", userName := "U3", userColor := "c3", instrument := .drums,
    notes := [], createdAt := 2 }

def drumLoopD : Loop :=
  { id := "d", userId := "u4", userName := "U4", userColor := "c4", instrument := .drums,
    notes := [], createdAt := 3 }

def keysLoopK : Loop :=
  { id := "k", userId := "u5", userName := "U5", userColor := "c5", instrument := .keys,
    notes := [], createdAt := 4 }

/-- Drums at capacity (4 loops), one keys loop, and it is meP's turn. -/
def fourDrumState : SessionState :=
  { bpm := 120, loops := [drumLoopA, drumLoopB, drumLoopC, drumLoopD, keysLoopK],
    activeTurn := some { userId := "me", startedAt := 0, endsAt := 100 }, version := 1,
    creatorId := some "me", windowCycles := 4, playbackStartedAt := none }

def offRow : List Bool := List.replicate 16 false

/-- A drum draft with a single snare hit on step 0. -/
def snareGrid : DrumGrid :=
  { kick := offRow, snare := true :: List.replicate 15 false, hat := offRow, clap := offRow }

/-- A drum draft with a single kick hit on step 0 (conflicting with `drumLoopA`). -/
def kickGrid : DrumGrid :=
  { kick := true :: List.replicate 15 false, snare := offRow, hat := offRow, clap := offRow }

def emptyGrid : DrumGrid := { kick := offRow, snare := offRow, hat := offRow, clap := offRow }

/-- The state published by `commitDraft fourDrumState meP .drums snareGrid [] []
(some "a") ["me"] 50 100 "z"`. -/
def commitOutcome : SessionState :=
  { bpm := 120,
    loops := [drumLoopB, drumLoopC, drumLoopD, keysLoopK,
      { id := "z", userId := "me", userName := "M", userColor := "c0", instrument := .drums,
        notes := [{ id := "snare-0", pitch := "snare", step := 0, duration := 1, velocity := 90 }],
        createdAt := 50 }],
    activeTurn := some { userId := "me", startedAt := 50, endsAt := 150 }, version := 50,
    creatorId := some "me", windowCycles := 4, playbackStartedAt := none }

/-- The genesis produced by `bootstrapStep freshPeerState false [meP] "me" 1000`
(composition window at 120 BPM and 4 cycles is 32000 ms). -/
def genesisOut : SessionState :=
  { bpm := 120, loops := [],
    activeTurn := some { userId := "me", startedAt := 1000, endsAt := 33000 }, version := 1000,
    creatorId := some "me", windowCycles := 4, playbackStartedAt := some 1000 }

/-! ## Reconciler lemmas -/

theorem applyIncoming_eq (s inc : SessionState) :
    applyIncoming s inc = if s.version ≤ inc.version then inc else s := by
  unfold applyIncoming
  by_cases h0 : s.version = 0
  · simp [h0, Nat.zero_le]
  · simp [h0, ge_iff_le]

theorem version_applyIncoming (s inc : SessionState) :
    (applyIncoming s inc).version = max s.version inc.version := by
  rw [applyIncoming_eq]
  split <;> omega

theorem foldl_applyIncoming_mem (l : List SessionState) (s : SessionState) :
    List.foldl applyIncoming s l ∈ s :: l := by
  induction l generalizing s with
  | nil => simp
  | cons a as ih =>
    simp only [List.foldl_cons]
    rcases List.mem_cons.mp (ih (applyIncoming s a)) with h | h
    · rw [h, applyIncoming_eq]
      split
      · simp
      · simp
    · exact List.mem_cons_of_mem _ (List.mem_cons_of_mem _ h)

theorem le_version_foldl (l : List SessionState) (s : SessionState) :
    s.version ≤ (List.foldl applyIncoming s l).version := by
  induction l generalizing s with
  | nil => simp
  | cons a as ih =>
    simp only [List.foldl_cons]
    refine le_trans ?_ (ih (applyIncoming s a))
    rw [version_applyIncoming]
    omega

theorem mem_le_version_foldl (l : List SessionState) (s : SessionState) :
    ∀ y ∈ l, y.version ≤ (List.foldl applyIncoming s l).version := by
  induction l generalizing s with
  | nil => simp
  | cons a as ih =>
    intro y hy
    simp only [List.foldl_cons]
    rcases List.mem_cons.mp hy with rfl | hy
    · refine le_trans ?_ (le_version_foldl as (applyIncoming s y))
      rw [version_applyIncoming]
      omega
    · exact ih (applyIncoming s a) y hy

theorem exists_version_max (l : List SessionState) (hne : l ≠ []) :
    ∃ x ∈ l, ∀ y ∈ l, y.version ≤ x.version := by
  induction l with
  | nil => exact absurd rfl hne
  | cons a as ih =>
    rcases as with _ | ⟨b, bs⟩
    · exact ⟨a, by simp, by simp⟩
    · obtain ⟨m, hm, hmax⟩ := ih (by simp)
      by_cases h : m.version ≤ a.version
      · refine ⟨a, by simp, ?_⟩
        intro y hy
        rcases List.mem_cons.mp hy with rfl | hy
        · exact le_refl _
        · exact le_trans (hmax y hy) h
      · refine ⟨m, List.mem_cons_of_mem _ hm, ?_⟩
        intro y hy
        rcases List.mem_cons.mp hy with rfl | hy
        · omega
        · exact hmax y hy

/-- Folding the subscription handler from a version-0 state over a batch of
updates with pairwise distinct versions lands exactly on the update whose
version is maximal. -/
theorem foldl_applyIncoming_eq_max (init : SessionState) (l : List SessionState)
    (h0 : init.version = 0) (hnodup : (l.map SessionState.version).Nodup)
    (x : SessionState) (hx : x ∈ l) (hmax : ∀ y ∈ l, y.version ≤ x.version) :
    List.foldl applyIncoming init l = x := by
  rcases l with _ | ⟨a, as⟩
  · simp at hx
  · have h1 : applyIncoming init a = a := by
      rw [applyIncoming_eq, if_pos (by omega)]
    simp only [List.foldl_cons, h1]
    have hrmem : List.foldl applyIncoming a as ∈ a :: as := foldl_applyIncoming_mem as a
    have hrge : x.version ≤ (List.foldl applyIncoming a as).version := by
      rcases List.mem_cons.mp hx with rfl | hx
      · exact le_version_foldl as x
      · exact mem_le_version_foldl as a x hx
    have hrle : (List.foldl applyIncoming a as).version ≤ x.version :=
      hmax _ hrmem
    exact List.inj_on_of_nodup_map hnodup hrmem hx (le_antisymm hrle hrge)

/-- C1: for any finite batch of SessionState updates with pairwise distinct
versions delivered to a Reconciler whose local version is 0, any two delivery
orders converge to the same final adopted state, and that state is the update
with the maximal version (Scenario E is the concrete instance in the
witness). -/
theorem c1_monotonic_convergence (init : SessionState) (l1 l2 : List SessionState)
    (h0 : init.version = 0) (hne : l1 ≠ []) (hperm : l1.Perm l2)
    (hnodup : (l1.map SessionState.version).Nodup) :
    List.foldl applyIncoming init l1 = List.foldl applyIncoming init l2 ∧
      ∀ x ∈ l1, (∀ y ∈ l1, y.version ≤ x.version) →
        List.foldl applyIncoming init l1 = x := by
  have hnodup2 : (l2.map SessionState.version).Nodup :=
    (hperm.map SessionState.version).nodup_iff.mp hnodup
  obtain ⟨m, hm, hmax⟩ := exists_version_max l1 hne
  have hm2 : m ∈ l2 := hperm.mem_iff.mp hm
  have hmax2 : ∀ y ∈ l2, y.version ≤ m.version := fun y hy =>
    hmax y (hperm.mem_iff.mpr hy)
  refine ⟨?_, fun x hx hxmax => foldl_applyIncoming_eq_max init l1 h0 hnodup x hx hxmax⟩
  rw [foldl_applyIncoming_eq_max init l1 h0 hnodup m hm hmax,
    foldl_applyIncoming_eq_max init l2 h0 hnodup2 m hm2 hmax2]

/-- Witness for C1 at Scenario E: the version-1000 and version-1001 genesis
states delivered in both orders to a fresh third peer converge on the
version-1001 payload. -/
theorem c1_monotonic_convergence_witness :
    (List.foldl applyIncoming freshPeerState [genesisA, genesisB] =
        List.foldl applyIncoming freshPeerState [genesisB, genesisA]) ∧
      List.foldl applyIncoming freshPeerState [genesisA, genesisB] = genesisB := by
  have h := c1_monotonic_convergence freshPeerState [genesisA, genesisB] [genesisB, genesisA]
    (by decide) (by decide) (by decide) (by decide)
  exact ⟨h.1, h.2 genesisB (by decide) (by decide)⟩

/-- C2 counterexample: a peer whose local state is already at version 1001
(`genesisB`) runs the join-time history fetch and retrieves the stale
version-1000 state (`genesisA`); the code adopts it even though its version is
strictly smaller, so the accept-iff-version rule does not cover the
short-history fetch. -/
theorem c2_history_adopts_stale_counterexample :
    applyHistory genesisB (some genesisA) = genesisA ∧ genesisA ≠ genesisB ∧
      genesisA.version < genesisB.version := by
  refine ⟨rfl, by decide, by decide⟩

/-- C2 (amended): the live-subscription handler adopts an incoming update iff
its version is at least the local version and replaces the state wholesale,
leaving it untouched for strictly smaller versions; the join-time history
fetch, by contrast, adopts the fetched state unconditionally. -/
theorem c2_merge_rule (localState incoming : SessionState) :
    (localState.version ≤ incoming.version → applyIncoming localState incoming = incoming) ∧
      (incoming.version < localState.version → applyIncoming localState incoming = localState) ∧
      applyHistory localState (some incoming) = incoming := by
  refine ⟨fun h => ?_, fun h => ?_, rfl⟩
  · rw [applyIncoming_eq, if_pos h]
  · rw [applyIncoming_eq, if_neg (by omega)]

/-- Witness for C2: the fresh update is adopted, the stale one is ignored, and
the history fetch adopts whatever it returns. -/
theorem c2_merge_rule_witness :
    applyIncoming genesisA genesisB = genesisB ∧
      applyIncoming genesisB genesisA = genesisB ∧
      applyHistory genesisB (some genesisA) = genesisA := by
  exact ⟨(c2_merge_rule genesisA genesisB).1 (by decide),
    (c2_merge_rule genesisB genesisA).2.1 (by decide),
    (c2_merge_rule genesisB genesisA).2.2⟩

/-! ## Turn arbitration lemmas -/

theorem jsIndexOf_of_not_mem {l : List String} {x : String} (h : x ∉ l) :
    jsIndexOf l x = -1 := by
  induction l with
  | nil => rfl
  | cons y ys ih =>
    simp only [List.mem_cons, not_or] at h
    have hy : ¬ y = x := fun he => h.1 he.symm
    simp [jsIndexOf, hy, ih h.2]

/-- C3 counterexample (Scenario B): queue [P0, P2], active turn held by the
departed P1 and not yet expired; the arbitration tick hands the turn to P0,
the queue head, not to P2 (the member at P1's last known index 1 modulo the
new length), because `indexOf` returns -1 for the departed holder. -/
theorem c3_departure_counterexample :
    (arbitrateStep departedQueueState ["P0", "P2"] 5 100).map
        (fun st => st.activeTurn.map Turn.userId) = some (some "P0") ∧
      ("P0" : String) ≠ "P2" := by
  refine ⟨by decide, by decide⟩

/-- C3 (amended): when the active turn's holder is no longer in the queue and
the queue is nonempty, the next arbitration tick assigns the turn to the queue
head (index 0, since `indexOf` yields -1 and (-1 + 1) mod length = 0),
regardless of the departed holder's former queue position. -/
theorem c3_departure_rotates_to_head (s : SessionState) (a : Turn)
    (queueIds : List String) (now windowMs : Nat) (ha : s.activeTurn = some a)
    (hgone : a.userId ∉ queueIds) (hne : queueIds ≠ []) :
    arbitrateStep s queueIds now windowMs =
      some { s with activeTurn := some { userId := queueIds.headD "", startedAt := now,
                                         endsAt := now + windowMs },
                    version := now } := by
  rcases queueIds with _ | ⟨q0, qs⟩
  · exact absurd rfl hne
  · have hcond : (a.userId ∉ q0 :: qs ∨ a.endsAt ≤ now) ∧ q0 :: qs ≠ [] :=
      ⟨Or.inl hgone, by simp⟩
    simp only [arbitrateStep, ha]
    rw [if_pos hcond, jsIndexOf_of_not_mem hgone]
    norm_num [List.headD]

/-- Witness for C3 (amended): with queue [P0, P2] and departed holder P1, the
tick rotates to P0. -/
theorem c3_departure_rotates_to_head_witness :
    arbitrateStep departedQueueState ["P0", "P2"] 5 100 =
      some { departedQueueState with
             activeTurn := some { userId := "P0", startedAt := 5, endsAt := 105 },
             version := 5 } :=
  c3_departure_rotates_to_head departedQueueState
    { userId := "P1", startedAt := 0, endsAt := 10 } ["P0", "P2"] 5 100 rfl
    (by decide) (by decide)

/-- C4 (code-bug demonstration): two enumerations of the same two-member set
with identical joinedAt timestamps are permutations of each other, yet
`queueFromPresence` (a bare stable sort by joinedAt, with no secondary key)
returns them in their respective enumeration orders, which differ — so the
ordering is not identical across peers observing the same membership set. -/
theorem c4_tie_break_nondeterminism :
    List.Perm [simJoinB, simJoinA] [simJoinA, simJoinB] ∧
      simJoinA.joinedAt = simJoinB.joinedAt ∧
      queueFromPresence [simJoinA, simJoinB] = [simJoinA, simJoinB] ∧
      queueFromPresence [simJoinB, simJoinA] = [simJoinB, simJoinA] ∧
      queueFromPresence [simJoinA, simJoinB] ≠ queueFromPresence [simJoinB, simJoinA] := by
  refine ⟨by decide, by decide, by decide, by decide, by decide⟩

/-! ## Publish operations -/

/-- C5 counterexample: versions are stamped with the wall-clock reading, not
with a value strictly above the local version — a BPM publish issued in the
same millisecond as the state it starts from (local version 5, now = 5)
publishes version 5, which is not strictly greater. -/
theorem c5_same_millisecond_counterexample :
    (bpmInput versionFiveState 120 5).version = 5 ∧
      ¬ versionFiveState.version < (bpmInput versionFiveState 120 5).version := by
  refine ⟨rfl, ?_⟩
  show ¬ (5 : Nat) < 5
  omega

/-- C5 (amended): every publish operation (BPM change, cycle change, playback
toggle, pass/turn rotation, loop commit) stamps the published version with the
wall-clock reading `now` of the call, so it strictly exceeds the local version
exactly when `now` does (not in general: not within the same millisecond, nor
under clock skew); the published state becomes the local state immediately and
irrespective of the relay acknowledgment, with no rollback. -/
theorem c5_publish_stamps_now (s : SessionState) (now : Nat) (h : s.version < now)
    (value : ℚ) (cyc : Nat) (queueIds : List String) (windowMs : Nat) (me : Participant)
    (inst : Instrument) (g : DrumGrid) (piano : List Note) (scaleNotes : List String)
    (replaceTarget : Option String) (newLoopId : String) :
    ((bpmInput s value now).version = now ∧ s.version < (bpmInput s value now).version) ∧
      ((cycleInput s cyc now).version = now ∧ s.version < (cycleInput s cyc now).version) ∧
      ((toggleSessionPlayback s now).version = now ∧
        s.version < (toggleSessionPlayback s now).version) ∧
      (∀ st, rotateTurn s queueIds now windowMs = some st →
        st.version = now ∧ s.version < st.version) ∧
      (∀ st, commitDraft s me inst g piano scaleNotes replaceTarget queueIds now windowMs
          newLoopId = some st → st.version = now ∧ s.version < st.version) ∧
      ∀ prev next : SessionState, ∀ ack : Bool, publishState prev next ack = next := by
  refine ⟨⟨rfl, h⟩, ⟨rfl, h⟩, ⟨rfl, h⟩, ?_, ?_, fun _ _ _ => rfl⟩
  · intro st hst
    rcases queueIds with _ | ⟨q0, qs⟩
    · simp [rotateTurn] at hst
    · simp only [rotateTurn] at hst
      cases hst
      exact ⟨rfl, h⟩
  · intro st hst
    unfold commitDraft at hst
    split at hst
    · split at hst
      · cases hst
      · split at hst
        · cases hst
        · cases hst
          exact ⟨rfl, h⟩
    · cases hst

/-- Witness for C5: from the version-5 state at now = 6, the BPM publish
stamps version 6, strictly above the local version. -/
theorem c5_publish_stamps_now_witness :
    (bpmInput versionFiveState 120 6).version = 6 ∧
      versionFiveState.version < (bpmInput versionFiveState 120 6).version :=
  (c5_publish_stamps_now versionFiveState 6 (by decide) 120 4 ["me"] 100 meP
    Instrument.drums emptyGrid [] [] none "z").1

/-! ## Loop commit lemmas -/

theorem countInst_nil (inst : Instrument) : countInst [] inst = 0 := rfl

theorem countInst_cons (a : Loop) (l : List Loop) (inst : Instrument) :
    countInst (a :: l) inst = (if a.instrument = inst then 1 else 0) + countInst l inst := by
  simp only [countInst, List.filter_cons]
  by_cases h : a.instrument = inst
  · simp [h, Nat.add_comm]
  · simp [h]

theorem countInst_singleton (a : Loop) (inst : Instrument) :
    countInst [a] inst = if a.instrument = inst then 1 else 0 := by
  rw [countInst_cons, countInst_nil, Nat.add_zero]

theorem countInst_append (l1 l2 : List Loop) (inst : Instrument) :
    countInst (l1 ++ l2) inst = countInst l1 inst + countInst l2 inst := by
  simp [countInst, List.filter_append]

theorem countInst_filter_le (l : List Loop) (p : Loop → Bool) (inst : Instrument) :
    countInst (l.filter p) inst ≤ countInst l inst := by
  simpa only [countInst] using ((List.filter_sublist l).filter _).length_le

theorem countInst_filter_other (l : List Loop) (inst other : Instrument) (h : other ≠ inst) :
    countInst (l.filter fun x => x.instrument ≠ inst) other = countInst l other := by
  induction l with
  | nil => rfl
  | cons a as ih =>
    rw [countInst_cons, List.filter_cons]
    by_cases ha : a.instrument = inst
    · rw [if_neg (by simp [ha]), ih, if_neg (fun he => h (he.symm.trans ha)), Nat.zero_add]
    · rw [if_pos (by simp [ha]), countInst_cons, ih]

theorem countInst_filter_none (l : List Loop) (inst : Instrument) :
    countInst (l.filter fun x => x.instrument ≠ inst) inst = 0 := by
  induction l with
  | nil => rfl
  | cons a as ih =>
    rw [List.filter_cons]
    by_cases ha : a.instrument = inst
    · rw [if_neg (by simp [ha])]
      exact ih
    · rw [if_pos (by simp [ha]), countInst_cons, if_neg ha, ih]

theorem countInst_filter_id_lt (l : List Loop) (c : String) (inst : Instrument)
    (h : ∃ x ∈ l, x.instrument = inst ∧ x.id = c) :
    countInst (l.filter fun x => x.id ≠ c) inst < countInst l inst := by
  induction l with
  | nil => simp at h
  | cons a as ih =>
    obtain ⟨x, hx, hxi, hxc⟩ := h
    rw [List.filter_cons, countInst_cons]
    rcases List.mem_cons.mp hx with rfl | hx
    · rw [if_neg (by simp [hxc]), if_pos hxi]
      have hle := countInst_filter_le as (fun y => decide (y.id ≠ c)) inst
      omega
    · by_cases hac : a.id = c
      · rw [if_neg (by simp [hac])]
        have h1 := ih ⟨x, hx, hxi, hxc⟩
        split <;> omega
      · rw [if_pos (by simp [hac]), countInst_cons]
        have h1 := ih ⟨x, hx, hxi, hxc⟩
        by_cases hai : a.instrument = inst <;> simp only [hai, if_true, if_false] <;> omega

theorem loopLimit_pos (inst : Instrument) : 1 ≤ loopLimit inst := by
  cases inst <;> decide

/-- When the capacity branch fires with a replace target that is unset or
names a committed loop of the instrument, the chosen replacement id belongs
to a committed loop of the instrument. -/
theorem chosen_mem (s : SessionState) (inst : Instrument) (rt : Option String)
    (hcap : loopLimit inst ≤ countInst s.loops inst)
    (hrt : rt = none ∨ ∃ L ∈ s.loops, L.instrument = inst ∧ rt = some L.id) :
    ∃ x ∈ s.loops, x.instrument = inst ∧ x.id = chosenReplaceId s inst rt := by
  rcases hrt with rfl | ⟨L, hL, hLi, rfl⟩
  · have hpos : 0 < countInst s.loops inst := lt_of_lt_of_le (loopLimit_pos inst) hcap
    unfold chosenReplaceId
    cases hfe : s.loops.filter (fun l => l.instrument = inst) with
    | nil => simp [countInst, hfe] at hpos
    | cons e es =>
      have he : e ∈ s.loops.filter (fun l => l.instrument = inst) := by
        rw [hfe]
        exact List.mem_cons_self _ _
      have hm := List.mem_filter.mp he
      exact ⟨e, hm.1, by simpa using hm.2, rfl⟩
  · exact ⟨L, hL, hLi, rfl⟩

/-- Inversion of a successful `commitDraft`. -/
theorem commitDraft_some_inv {s : SessionState} {me : Participant} {inst : Instrument}
    {g : DrumGrid} {piano : List Note} {scaleNotes : List String}
    {replaceTarget : Option String} {queueIds : List String} {now windowMs : Nat}
    {newLoopId : String} {st : SessionState}
    (h : commitDraft s me inst g piano scaleNotes replaceTarget queueIds now windowMs
      newLoopId = some st) :
    isMyTurn s me.id = true ∧ getDraftNotes inst g piano scaleNotes ≠ [] ∧
      ¬(inst = Instrument.drums ∧ drumConflict (drumsToNotes g) s.loops) ∧
      st = commitResult s me inst (getDraftNotes inst g piano scaleNotes) replaceTarget
        queueIds now windowMs newLoopId := by
  unfold commitDraft at h
  split at h
  · next hturn =>
    split at h
    · cases h
    · next hnotes =>
      split at h
      · cases h
      · next hconf =>
        cases h
        exact ⟨by simpa using hturn, hnotes, hconf, rfl⟩
  · cases h

/-- C6 counterexample: drums at capacity (and every instrument within its
cap), yet a drum commit whose replaceTarget names the keys loop "k" removes no
drum loop and yields five committed drum loops, one above DRUM_LOOP_LIMIT —
the capacity invariant is not preserved "regardless of the value of the
replaceTarget selection". -/
theorem c6_foreign_replace_counterexample :
    countInst fourDrumState.loops Instrument.drums = DRUM_LOOP_LIMIT ∧
      countInst fourDrumState.loops Instrument.keys ≤ MELODIC_LOOP_LIMIT ∧
      countInst fourDrumState.loops Instrument.bass ≤ MELODIC_LOOP_LIMIT ∧
      (commitDraft fourDrumState meP Instrument.drums snareGrid [] [] (some "k") ["me"] 50 100
          "z").map (fun st => countInst st.loops Instrument.drums) = some 5 ∧
      DRUM_LOOP_LIMIT < 5 := by
  refine ⟨by decide, by decide, by decide, by decide, by decide⟩

/-- C6 (amended): a state produced by `commitDraft` from a state satisfying
the per-instrument capacity bounds satisfies them again, provided the
replaceTarget selection is unset or names a committed loop of the committing
instrument (which the UI guarantees); at capacity the filter then removes a
loop of that instrument before the new loop is appended. -/
theorem c6_capacity_invariant (s : SessionState) (me : Participant) (inst : Instrument)
    (g : DrumGrid) (piano : List Note) (scaleNotes : List String)
    (replaceTarget : Option String) (queueIds : List String) (now windowMs : Nat)
    (newLoopId : String) (st : SessionState)
    (hcap : ∀ i, countInst s.loops i ≤ loopLimit i)
    (hrt : replaceTarget = none ∨ ∃ L ∈ s.loops, L.instrument = inst ∧ replaceTarget = some L.id)
    (hsome : commitDraft s me inst g piano scaleNotes replaceTarget queueIds now windowMs
      newLoopId = some st) :
    ∀ i, countInst st.loops i ≤ loopLimit i := by
  obtain ⟨-, -, -, rfl⟩ := commitDraft_some_inv hsome
  intro i
  simp only [commitResult, countInst_append, countInst_singleton]
  unfold commitKeepLoops
  split
  · next hcond =>
    have hcond2 : loopLimit inst ≤ countInst s.loops inst := hcond
    by_cases hii : inst = i
    · subst hii
      obtain ⟨x, hx, hxi, hxc⟩ := chosen_mem s inst replaceTarget hcond2 hrt
      have hlt := countInst_filter_id_lt s.loops (chosenReplaceId s inst replaceTarget) inst
        ⟨x, hx, hxi, hxc⟩
      have hle := hcap inst
      rw [if_pos rfl]
      omega
    · have hle := countInst_filter_le s.loops
        (fun y => decide (y.id ≠ chosenReplaceId s inst replaceTarget)) i
      have hli := hcap i
      rw [if_neg hii]
      omega
  · by_cases hii : inst = i
    · subst hii
      rw [countInst_filter_none, if_pos rfl]
      have := loopLimit_pos inst
      omega
    · rw [countInst_filter_other s.loops inst i (fun he => hii he.symm), if_neg hii]
      have hli := hcap i
      omega

/-- Witness for C6 (amended): the drum commit at capacity with the valid
replaceTarget "a" keeps every instrument within its cap. -/
theorem c6_capacity_invariant_witness :
    countInst commitOutcome.loops Instrument.drums ≤ loopLimit Instrument.drums ∧
      countInst commitOutcome.loops Instrument.keys ≤ loopLimit Instrument.keys ∧
      countInst commitOutcome.loops Instrument.bass ≤ loopLimit Instrument.bass := by
  have h := c6_capacity_invariant fourDrumState meP Instrument.drums snareGrid [] []
    (some "a") ["me"] 50 100 "z" commitOutcome
    (by intro i; cases i <;> decide)
    (Or.inr ⟨drumLoopA, by decide, by decide, by decide⟩)
    (by decide)
  exact ⟨h Instrument.drums, h Instrument.keys, h Instrument.bass⟩

/-! ## Drum exclusivity -/

theorem mem_usedDrumSounds {loops : List Loop} {p : String} :
    p ∈ usedDrumSounds loops ↔
      ∃ L ∈ loops, L.instrument = Instrument.drums ∧ p ∈ voices L := by
  simp only [usedDrumSounds, List.mem_flatten, List.mem_map, List.mem_filter,
    decide_eq_true_eq]
  constructor
  · rintro ⟨v, ⟨L, ⟨hL, hLd⟩, rfl⟩, hp⟩
    exact ⟨L, hL, hLd, hp⟩
  · rintro ⟨L, hL, hLd, hp⟩
    exact ⟨voices L, ⟨L, ⟨hL, hLd⟩, rfl⟩, hp⟩

theorem commit_none_of_drumConflict (s : SessionState) (me : Participant) (g : DrumGrid)
    (piano : List Note) (scaleNotes : List String) (replaceTarget : Option String)
    (queueIds : List String) (now windowMs : Nat) (newLoopId : String)
    (h : ∃ n ∈ drumsToNotes g, n.pitch ∈ usedDrumSounds s.loops) :
    commitDraft s me Instrument.drums g piano scaleNotes replaceTarget queueIds now windowMs
      newLoopId = none := by
  unfold commitDraft
  split
  · split
    · rfl
    · rw [if_pos ⟨rfl, by unfold drumConflict; exact decide_eq_true h⟩]
  · rfl

theorem commitKeepLoops_sublist (s : SessionState) (inst : Instrument)
    (rt : Option String) : List.Sublist (commitKeepLoops s inst rt) s.loops := by
  unfold commitKeepLoops
  split
  · exact List.filter_sublist _
  · exact List.filter_sublist _

/-- Appending a fresh loop whose drum voices avoid every committed drum sound
of `base` to a sublist of `base` preserves drum exclusivity. -/
theorem drumExclusive_commit (base keep : List Loop) (nl : Loop)
    (hsub : List.Sublist keep base) (hex : drumExclusive base)
    (hnc : nl.instrument = Instrument.drums → ∀ p ∈ voices nl, p ∉ usedDrumSounds base) :
    drumExclusive (keep ++ [nl]) := by
  unfold drumExclusive at hex ⊢
  rw [List.filter_append, List.pairwise_append]
  by_cases hd : nl.instrument = Instrument.drums
  · have hf : [nl].filter (fun l => l.instrument = Instrument.drums) = [nl] := by simp [hd]
    rw [hf]
    refine ⟨List.Pairwise.sublist (hsub.filter _) hex, List.pairwise_singleton _ _, ?_⟩
    intro x hx y hy
    have hy2 : y = nl := by simpa using hy
    subst hy2
    intro p hpx hpy
    obtain ⟨hxk, hxd⟩ := List.mem_filter.mp hx
    exact hnc hd p hpy (mem_usedDrumSounds.mpr ⟨x, hsub.subset hxk, by simpa using hxd, hpx⟩)
  · have hf : [nl].filter (fun l => l.instrument = Instrument.drums) = [] := by simp [hd]
    rw [hf]
    exact ⟨List.Pairwise.sublist (hsub.filter _) hex, List.Pairwise.nil, by simp⟩

/-- C7: a drum draft that reuses any drum voice already present in a committed
drum loop is rejected outright by `commitDraft` (nothing is published), and
consequently a successful commit from a state with no drum voice shared
between two different committed drum loops yields a state with the same
property. -/
theorem c7_drum_exclusivity :
    (∀ (s : SessionState) (me : Participant) (g : DrumGrid) (piano : List Note)
        (scaleNotes : List String) (replaceTarget : Option String) (queueIds : List String)
        (now windowMs : Nat) (newLoopId : String),
        (∃ n ∈ drumsToNotes g, n.pitch ∈ usedDrumSounds s.loops) →
          commitDraft s me Instrument.drums g piano scaleNotes replaceTarget queueIds now
            windowMs newLoopId = none) ∧
      ∀ (s : SessionState) (me : Participant) (inst : Instrument) (g : DrumGrid)
        (piano : List Note) (scaleNotes : List String) (replaceTarget : Option String)
        (queueIds : List String) (now windowMs : Nat) (newLoopId : String)
        (st : SessionState),
        commitDraft s me inst g piano scaleNotes replaceTarget queueIds now windowMs
            newLoopId = some st →
          drumExclusive s.loops → drumExclusive st.loops := by
  constructor
  · exact fun s me g piano scaleNotes rt q now w nid h =>
      commit_none_of_drumConflict s me g piano scaleNotes rt q now w nid h
  · intro s me inst g piano scaleNotes rt q now w nid st hsome hex
    obtain ⟨-, -, hnoconf, rfl⟩ := commitDraft_some_inv hsome
    simp only [commitResult]
    refine drumExclusive_commit s.loops _ _ (commitKeepLoops_sublist s inst rt) hex ?_
    intro hd p hp hpu
    have hd2 : inst = Instrument.drums := hd
    subst hd2
    obtain ⟨n, hn, hnp⟩ := List.mem_map.mp hp
    refine hnoconf ⟨rfl, ?_⟩
    unfold drumConflict
    exact decide_eq_true ⟨n, hn, hnp.symm ▸ hpu⟩

/-- Witness for C7: the kick draft conflicts with the committed kick loop and
is rejected; the snare commit at capacity goes through and its result is
still exclusive. -/
theorem c7_drum_exclusivity_witness :
    commitDraft fourDrumState meP Instrument.drums kickGrid [] [] none ["me"] 50 100 "z" =
        none ∧
      drumExclusive commitOutcome.loops := by
  constructor
  · exact c7_drum_exclusivity.1 fourDrumState meP kickGrid [] [] none ["me"] 50 100 "z"
      (by decide)
  · exact c7_drum_exclusivity.2 fourDrumState meP Instrument.drums snareGrid [] [] (some "a")
      ["me"] 50 100 "z" commitOutcome (by decide) (by decide)

/-- C8: whenever a `commitDraft` precondition fails — the caller does not hold
the active turn, the computed draft is empty, or a drum draft has an
unresolved sound conflict — the commit publishes nothing, so the session
state is left unchanged. -/
theorem c8_commit_atomicity (s : SessionState) (me : Participant) (inst : Instrument)
    (g : DrumGrid) (piano : List Note) (scaleNotes : List String)
    (replaceTarget : Option String) (queueIds : List String) (now windowMs : Nat)
    (newLoopId : String)
    (h : isMyTurn s me.id = false ∨ getDraftNotes inst g piano scaleNotes = [] ∨
      (inst = Instrument.drums ∧ drumConflict (drumsToNotes g) s.loops = true)) :
    commitDraft s me inst g piano scaleNotes replaceTarget queueIds now windowMs newLoopId =
      none := by
  unfold commitDraft
  by_cases ht : isMyTurn s me.id
  · rw [if_pos ht]
    rcases h with h | h | h
    · rw [ht] at h
      cases h
    · rw [if_pos h]
    · by_cases hn : getDraftNotes inst g piano scaleNotes = []
      · rw [if_pos hn]
      · rw [if_neg hn, if_pos h]
  · rw [if_neg ht]

/-- Witness for C8: an all-empty drum grid yields an empty draft and the
commit publishes nothing. -/
theorem c8_commit_atomicity_witness :
    commitDraft fourDrumState meP Instrument.drums emptyGrid [] [] none ["me"] 50 100 "z" =
      none :=
  c8_commit_atomicity fourDrumState meP Instrument.drums emptyGrid [] [] none ["me"] 50 100
    "z" (Or.inr (Or.inl (by decide)))

/-- C9: the genesis state synthesized by the queue head when no prior state
was observed has empty loops, the bootstrapper as creator and turn holder, a
turn window of exactly the composition window, playback started at the
creation timestamp (not paused), and version equal to that timestamp; it is
only produced when no state was loaded, no creator exists, and the
bootstrapper heads the queue. -/
theorem c9_genesis_shape (s : SessionState) (stateLoaded : Bool) (queue : List Participant)
    (meId : String) (now : Nat) (g : SessionState)
    (h : bootstrapStep s stateLoaded queue meId now = some g) :
    g.loops = [] ∧ g.creatorId = some meId ∧
      g.activeTurn = some { userId := meId, startedAt := now,
                            endsAt := now + compositionWindowMs s.bpm s.windowCycles } ∧
      g.playbackStartedAt = some now ∧ g.version = now ∧ g.bpm = s.bpm ∧
      stateLoaded = false ∧ s.creatorId = none ∧
      ∃ q0 qs, queue = q0 :: qs ∧ q0.id = meId := by
  unfold bootstrapStep at h
  by_cases hl : stateLoaded
  · rw [if_pos hl] at h
    cases h
  · rw [if_neg hl] at h
    cases queue with
    | nil => cases h
    | cons q0 qs =>
      simp only [ne_eq] at h
      by_cases hc : s.creatorId = none
      · rw [if_neg (not_not_intro hc)] at h
        by_cases hq : q0.id = meId
        · rw [if_neg (not_not_intro hq)] at h
          cases h
          exact ⟨rfl, rfl, rfl, rfl, rfl, rfl, by simpa using hl, hc, q0, qs, rfl, hq⟩
        · rw [if_pos hq] at h
          cases h
      · rw [if_pos hc] at h
        cases h

/-- Witness for C9: the first participant bootstraps at t = 1000 with BPM 120
and 4 cycles (32000 ms window), producing `genesisOut`. -/
theorem c9_genesis_shape_witness :
    genesisOut.loops = [] ∧ genesisOut.creatorId = some "me" ∧
      genesisOut.activeTurn = some { userId := "me", startedAt := 1000,
                                     endsAt := 1000 + compositionWindowMs 120 4 } ∧
      genesisOut.playbackStartedAt = some 1000 ∧ genesisOut.version = 1000 ∧
      genesisOut.bpm = freshPeerState.bpm ∧ (false : Bool) = false ∧
      freshPeerState.creatorId = none ∧
      ∃ q0 qs, [meP] = q0 :: qs ∧ q0.id = "me" :=
  c9_genesis_shape freshPeerState false [meP] "me" 1000 genesisOut (by
    have h32 : compositionWindowMs 120 4 = 32000 := by
      unfold compositionWindowMs STEP_COUNT
      norm_num [round_eq]
      rfl
    simp only [bootstrapStep, freshPeerState, meP, h32]
    decide)

/-- C10: even at drum capacity, a drum draft whose voices intersect those of
the loop chosen for replacement is rejected, because the conflict set is
computed over every committed drum loop before the replacement is applied. -/
theorem c10_conflict_spans_replacement (s : SessionState) (me : Participant) (g : DrumGrid)
    (piano : List Note) (scaleNotes : List String) (replaceTarget : Option String)
    (queueIds : List String) (now windowMs : Nat) (newLoopId : String) (L : Loop)
    (hcap : DRUM_LOOP_LIMIT ≤ countInst s.loops Instrument.drums)
    (hL : L ∈ s.loops) (hLd : L.instrument = Instrument.drums)
    (hLid : L.id = chosenReplaceId s Instrument.drums replaceTarget)
    (hconf : ∃ n ∈ drumsToNotes g, n.pitch ∈ voices L) :
    commitDraft s me Instrument.drums g piano scaleNotes replaceTarget queueIds now windowMs
      newLoopId = none := by
  obtain ⟨n, hn, hp⟩ := hconf
  exact commit_none_of_drumConflict s me g piano scaleNotes replaceTarget queueIds now
    windowMs newLoopId ⟨n, hn, mem_usedDrumSounds.mpr ⟨L, hL, hLd, hp⟩⟩

/-- Witness for C10: drums at capacity, replaceTarget = "a" (the kick loop),
and a kick draft — rejected even though "a" would be removed. -/
theorem c10_conflict_spans_replacement_witness :
    commitDraft fourDrumState meP Instrument.drums kickGrid [] [] (some "a") ["me"] 50 100
      "z" = none :=
  c10_conflict_spans_replacement fourDrumState meP kickGrid [] [] (some "a") ["me"] 50 100
    "z" drumLoopA (by decide) (by decide) (by decide) (by decide) (by decide)

end MusicShare
